import Mathlib

/-!
# YTlivechat: the per-guild chat-to-speech pipeline of `src/app.js`

A shallow embedding of the guild pipeline: the in-memory cache and its JSON
snapshot (`createData`, `saveCache`, `initializeDataFile`, `deleteDataFile`),
the reset protocol (`resetGuildData`), the playback batch (`processChats`,
`playTextAsSpeech`), the ingestion loop (`fetchLiveChat`) and the command
handler (`interactionCreate`).

Conventions of the embedding.

* One guild is modelled; `World` holds `guildData[guildId]`, the two files of
  that guild and what the program emits (log of spoken chats, texts sent to the
  text-to-speech URL, follow-up replies).
* JavaScript objects are references.  A chat object lives in `World.heap` and
  `chatCache` is the array of references to them, so an object that a running
  batch still holds stays addressable after `chatCache = []` replaced the array.
* A JavaScript string is a list of UTF-16 code units; `Text` is `List Char`,
  one `Char` standing for one unit, so `.length` and `.substring(0, n)` are
  `List.length` and `List.take n`.
* `nextId` is a JavaScript number; it is an exact integer far beyond any
  reachable count of chats and is modelled by `Nat`.
* An `await` is a point where other tasks run.  What they do there and how the
  awaited promise settles is an input of the model (`Await`, `Arrival`).
-/

namespace YTLiveChat

/-! ## Data model -/

/-- A JavaScript string, as its sequence of UTF-16 code units. -/
abbrev Text := List Char

/-- Address of a chat object in the heap. -/
abbrev Ref := Nat

/-- An opaque handle of the voice library (a voice connection or an audio player). -/
abbrev Handle := Nat

/-- The object literal built in `fetchLiveChat` before `createData` gives it an id. -/
structure Draft where
  name : Text
  message : Text
  played : Bool
  deriving DecidableEq, Repr

/-- A chat entry of `chatCache`, also one record of `chats_<guild>.json`. -/
structure Chat where
  id : Nat
  name : Text
  message : Text
  played : Bool
  deriving DecidableEq, Repr

/-- The state of one guild and of its surroundings. -/
structure World where
  /-- The array `guildData[guildId].chatCache`, as references into `heap`. -/
  chatCache : List Ref
  /-- The counter `guildData[guildId].nextId`. -/
  nextId : Nat
  /-- The flag `guildData[guildId].isProcessing`. -/
  isProcessing : Bool
  /-- The flag `guildData[guildId].shouldStop`. -/
  shouldStop : Bool
  /-- The voice connection, `none` for `null`. -/
  connection : Option Handle
  /-- The audio player, `none` for `null`. -/
  player : Option Handle
  /-- Every chat object allocated so far; a `Ref` is an index into it. -/
  heap : List Chat
  /-- Content of `chats_<guild>.json`, `none` when the file does not exist. -/
  dataFile : Option (List Chat)
  /-- Whether `output_<guild>.mp3` exists. -/
  audioFile : Bool
  /-- Chats handed to `playTextAsSpeech` by `processChats`, in call order. -/
  spoken : List Ref
  /-- Texts put into the text-to-speech request, in call order. -/
  rendered : List Text
  /-- Messages sent with `interaction.followUp`, in order. -/
  replies : List String
  /-- Number of `setInterval` timers registered for the guild (none is ever cleared). -/
  timers : Nat
  /-- Number of `fetchLiveChat` loops started for the guild. -/
  ingestions : Nat
  deriving DecidableEq, Repr

/-- The chat objects of the cache, in array order (what `JSON.stringify` sees).
A reference that points to no object does not occur in a world the program
builds; it counts as absent. -/
def queue (w : World) : List Chat :=
  w.chatCache.filterMap fun r => w.heap[r]?

/-- Every reference of the cache points to an allocated object. -/
def CacheValid (w : World) : Prop :=
  ∀ r ∈ w.chatCache, r < w.heap.length

instance (w : World) : Decidable (CacheValid w) := by
  unfold CacheValid; infer_instance

/-- The value `guildData[guildId]` is given when the guild is seen for the first
time (`interactionCreate`, the `if (!guildData[guildId])` block). -/
def initGuild (w : World) : World :=
  { w with
    chatCache := []
    nextId := 1
    isProcessing := false
    shouldStop := false
    connection := none
    player := none }

/-- A world in which nothing happened yet: no guild entry, no file. -/
def blank : World :=
  { chatCache := [], nextId := 1, isProcessing := false, shouldStop := false,
    connection := none, player := none, heap := [], dataFile := none,
    audioFile := false, spoken := [], rendered := [], replies := [],
    timers := 0, ingestions := 0 }

/-! ## The store: snapshot file and cache -/

/-- Function `initializeDataFile`: write an empty array when the file does not exist. -/
def initializeDataFile (w : World) : World :=
  match w.dataFile with
  | none => { w with dataFile := some [] }
  | some _ => w

/-- Function `deleteDataFile`: unlink the snapshot and the rendered audio when they exist. -/
def deleteDataFile (w : World) : World :=
  let w1 := match w.dataFile with
    | some _ => { w with dataFile := none }
    | none => w
  if w1.audioFile then { w1 with audioFile := false } else w1

/-- Function `saveCache`: rewrite the snapshot from the cache. -/
def saveCache (w : World) : World :=
  { w with dataFile := some (queue w) }

/-- Function `createData`: `newData.id = nextId++`, push, `saveCache`.  The object literal
of the caller is allocated here. -/
def createData (newData : Draft) (w : World) : World :=
  saveCache { w with
    heap := w.heap ++ [⟨w.nextId, newData.name, newData.message, newData.played⟩]
    nextId := w.nextId + 1
    chatCache := w.chatCache ++ [w.heap.length] }

/-- Several `createData` calls in a row. -/
def createAll (ds : List Draft) (w : World) : World :=
  ds.foldl (fun acc d => createData d acc) w

/-! ## Reset -/

/-- Function `resetGuildData` up to its `await delay(1000)`. -/
def resetBegin (w : World) : World :=
  let w1 := { w with shouldStop := true, isProcessing := false }
  let w2 := deleteDataFile w1
  { w2 with chatCache := [] }

/-- Function `resetGuildData` after its `await delay(1000)`. -/
def resetEnd (w : World) : World :=
  initializeDataFile { w with shouldStop := false }

/-- Function `resetGuildData` with no other task running during its delay. -/
def resetGuildData (w : World) : World :=
  resetEnd (resetBegin w)

/-! ## What other tasks do at a suspension point -/

/-- One iteration of the body of the `for await` loop of `fetchLiveChat` for a
chat item: `if (shouldStop) break; createData(...)`. -/
def ingest (d : Draft) (w : World) : World :=
  if w.shouldStop then w else createData d w

/-- A step of another task of the same guild that can run while a task is
suspended: an ingestion loop receiving a chat item, or one half of a
`resetGuildData` call. -/
inductive EnvAct where
  | feed (d : Draft)
  | resetBegin
  | resetEnd
  deriving DecidableEq, Repr

/-- Effect of one step of another task. -/
def applyEnv (w : World) : EnvAct → World
  | .feed d => ingest d w
  | .resetBegin => resetBegin w
  | .resetEnd => resetEnd w

/-- Effect of the steps other tasks take during one suspension, in order. -/
def applyEnvs (acts : List EnvAct) (w : World) : World :=
  acts.foldl applyEnv w

/-- Whether a step belongs to a `resetGuildData` call. -/
def EnvAct.isReset : EnvAct → Bool
  | .feed _ => false
  | .resetBegin => true
  | .resetEnd => true

/-! ## Playback -/

/-- The constant `MAX_TTS_LENGTH`. -/
def MAX_TTS_LENGTH : Nat := 200

/-- The local `truncatedText` of `playTextAsSpeech`. -/
def truncatedText (text : Text) : Text :=
  if text.length > MAX_TTS_LENGTH then text.take MAX_TTS_LENGTH else text

/-- Function `playTextAsSpeech` from the call to the point where the promise is either
resolved at once (`if (shouldStop) return resolve()`) or left pending on the
renderer, which was given `truncatedText` and writes `output_<guild>.mp3`.  The
flag returned is `true` when the promise is pending. -/
def playTextAsSpeech (text : Text) (w : World) : World × Bool :=
  if w.shouldStop then (w, false)
  else ({ w with rendered := w.rendered ++ [truncatedText text], audioFile := true }, true)

/-- How a pending `playTextAsSpeech` promise settles: `resolve()` from the
`Idle` handler, or `reject` from the renderer or from the `catch` block. -/
inductive Outcome where
  | resolved
  | rejected
  deriving DecidableEq, Repr

/-- The handle `createAudioPlayer()` returns. -/
def createAudioPlayer : Handle := 0

/-- What a settled `playTextAsSpeech` promise leaves behind.  On success the
`end` handler stored a new player and the `Idle` handler unlinked the audio
file; what a failed render leaves is not tracked. -/
def settle (o : Outcome) (w : World) : World :=
  match o with
  | .resolved => { w with player := some createAudioPlayer, audioFile := false }
  | .rejected => w

/-- The filter predicate `c => !c.played`, on a reference of the cache (false on
a reference that points to no object). -/
def unplayed (w : World) (r : Ref) : Bool :=
  match w.heap[r]? with
  | some c => !c.played
  | none => false

/-- Whether the object behind a reference has `played = true`. -/
def isPlayed (w : World) (r : Ref) : Bool :=
  match w.heap[r]? with
  | some c => c.played
  | none => false

/-- The template literal handed to `playTextAsSpeech` for a chat. -/
def speechText (c : Chat) : Text :=
  "Pesan dari ".toList ++ c.name ++ ", ".toList ++ c.message

/-- The speech text of the object behind a reference (empty for a reference that
points to no object). -/
def textOf (w : World) (r : Ref) : Text :=
  match w.heap[r]? with
  | some c => speechText c
  | none => []

/-- The assignment `chat.played = true`. -/
def markPlayed (r : Ref) (w : World) : World :=
  { w with heap := w.heap.modify (fun c => { c with played := true }) r }

/-- The two statements after the loop of `processChats`. -/
def finishBatch (w : World) : World :=
  { saveCache w with isProcessing := false }

/-- One suspension of `processChats` at `await playTextAsSpeech(...)`: what other
tasks do meanwhile, and how the promise settles. -/
structure Await where
  during : List EnvAct
  outcome : Outcome
  deriving DecidableEq, Repr

/-- How far an activation of `processChats` got. -/
inductive Exit where
  /-- The function ran to its end, or returned at its guard. -/
  | returned
  /-- A rejected promise escaped from the `await`. -/
  | threw
  /-- Suspended at the `await` for `chat`, with `rest` still to visit. -/
  | waiting (chat : Ref) (rest : List Ref)
  deriving DecidableEq, Repr

/-- The `for ... of` loop of `processChats` entered at its head with the chats
still to visit, followed by the two statements after the loop.  `oracle` lists
the suspensions in order; when it is used up the activation stays suspended. -/
def chatLoop (w : World) : List Ref → List Await → World × Exit
  | [], _ => (finishBatch w, .returned)
  | r :: rest, oracle =>
    if w.shouldStop then (finishBatch w, .returned)
    else
      let w1 := { w with spoken := w.spoken ++ [r] }
      match playTextAsSpeech (textOf w1 r) w1 with
      | (w2, false) => chatLoop (markPlayed r w2) rest oracle
      | (w2, true) =>
        match oracle with
        | [] => (w2, .waiting r rest)
        | a :: more =>
          let w3 := applyEnvs a.during w2
          match a.outcome with
          | .rejected => (settle .rejected w3, .threw)
          | .resolved => chatLoop (markPlayed r (settle .resolved w3)) rest more

/-- The array `chatCache.filter(c => !c.played)`. -/
def selectUnplayed (w : World) : List Ref :=
  w.chatCache.filter (unplayed w)

/-- Function `processChats`, with other tasks running at its suspension points. -/
def processChatsWith (w : World) (oracle : List Await) : World × Exit :=
  if w.isProcessing || w.shouldStop then (w, .returned)
  else
    let w1 := { w with isProcessing := true }
    chatLoop w1 (selectUnplayed w1) oracle

/-- The suspensions of a batch during which no other task runs. -/
def alone (outcomes : List Outcome) : List Await :=
  outcomes.map fun o => ⟨[], o⟩

/-- Function `processChats` with no other task running during the batch; `outcomes` says
how the successive `playTextAsSpeech` promises settle. -/
def processChats (w : World) (outcomes : List Outcome) : World × Exit :=
  processChatsWith w (alone outcomes)

/-- The continuation of a suspended `processChats` once its promise settled. -/
def resumeChat (w : World) (chat : Ref) (rest : List Ref) (o : Outcome) : World × Exit :=
  match o with
  | .rejected => (settle .rejected w, .threw)
  | .resolved => chatLoop (markPlayed chat (settle .resolved w)) rest []

/-! ## Ingestion -/

/-- An action of the live feed (`mc.iter()`); `message` is the message already
passed through `stringify`. -/
structure Action where
  type : String
  authorName : Text
  message : Text
  deriving DecidableEq, Repr

/-- What the feed iterator delivers next: an action, or an error it raises
(`Masterchat.init` failing counts as an error before the first action). -/
inductive FeedEvent where
  | action (a : Action)
  | failure
  deriving DecidableEq, Repr

/-- One delivery of the feed: what other tasks do while the loop waits for it,
then the event. -/
structure Arrival where
  before : List EnvAct
  event : FeedEvent
  deriving DecidableEq, Repr

/-- Why the ingestion loop is over. -/
inductive IngestExit where
  /-- Every delivery was consumed and the loop is still iterating. -/
  | drained
  /-- The loop left through `if (shouldStop) break`. -/
  | stopped
  /-- The feed raised; the error was caught and logged. -/
  | failed
  deriving DecidableEq, Repr

/-- The filter `action.type === "addChatItemAction"`. -/
def isChatItem (a : Action) : Bool :=
  a.type == "addChatItemAction"

/-- Function `fetchLiveChat` on the deliveries of the feed.  Returns the world at the
moment the loop is over (or has consumed every delivery). -/
def fetchLiveChat (w : World) : List Arrival → World × IngestExit
  | [] => (w, .drained)
  | x :: more =>
    let w1 := applyEnvs x.before w
    match x.event with
    | .failure => (w1, .failed)
    | .action a =>
      if isChatItem a then
        if w1.shouldStop then (w1, .stopped)
        else fetchLiveChat (createData ⟨a.authorName, a.message, false⟩ w1) more
      else fetchLiveChat w1 more

/-! ## Commands -/

/-- The call `interaction.followUp(msg)`. -/
def followUp (msg : String) (w : World) : World :=
  { w with replies := w.replies ++ [msg] }

/-- A slash command as the handler sees it. -/
inductive Command where
  /-- Command `join`: the `liveid` option, the voice channel of the member, and the
  connection `joinVoiceChannel` returns (`none` when it throws). -/
  | join (liveId : Option String) (voiceChannel : Option Handle) (joined : Option Handle)
  /-- Command `stop`: whether `connection.destroy()` returns normally. -/
  | stop (leaves : Bool)
  /-- Any other command name. -/
  | other
  deriving DecidableEq, Repr

/-- The reply of `stop` when the guild has no connection. -/
def notConnectedReply : String := "Bot tidak terhubung ke voice channel mana pun."

/-- The `join` branch of the handler. -/
def onJoin (liveId : Option String) (voiceChannel joined : Option Handle) (w : World) : World :=
  match voiceChannel with
  | none => followUp "Kamu harus berada di voice channel terlebih dahulu!" w
  | some _ =>
    if liveId = none ∨ liveId = some "" then followUp "Silakan berikan liveId yang valid!" w
    else
      match joined with
      | none => followUp "Terjadi kesalahan saat mencoba bergabung ke voice channel." w
      | some c =>
        let w1 := followUp "Bot sudah bergabung ke voice channel." { w with connection := some c }
        { w1 with timers := w1.timers + 1, ingestions := w1.ingestions + 1 }

/-- The `stop` branch of the handler. -/
def onStop (leaves : Bool) (w : World) : World :=
  let w1 := resetGuildData w
  match w1.connection with
  | some _ =>
    match w1.player with
    | none => followUp "Terjadi kesalahan saat mencoba meninggalkan voice channel." w1
    | some _ =>
      if leaves then
        followUp "Bot telah meninggalkan voice channel dan semua proses dihentikan."
          { w1 with connection := none }
      else followUp "Terjadi kesalahan saat mencoba meninggalkan voice channel." w1
  | none => followUp notConnectedReply w1

/-- The `interactionCreate` handler for a command, with no other task running
at its suspension points.  `known` says whether `guildData[guildId]` exists. -/
def onInteraction (known : Bool) (cmd : Command) (w : World) : World :=
  let w0 := if known then w else initGuild w
  let w1 := resetGuildData w0
  match cmd with
  | .join liveId voiceChannel joined => onJoin liveId voiceChannel joined w1
  | .stop leaves => onStop leaves w1
  | .other => w1

/-! ## The guild as a transition system -/

/-- An activation of `processChats` suspended at its `await`. -/
structure Drain where
  chat : Ref
  rest : List Ref
  deriving DecidableEq, Repr

/-- The guild together with its suspended activations. -/
structure Sys where
  world : World
  /-- Activations of `processChats` that started and have not finished. -/
  drains : List Drain
  /-- Calls of `resetGuildData` that are in their delay. -/
  resets : Nat
  deriving DecidableEq, Repr

/-- What can happen next in a guild. -/
inductive Event where
  /-- A `setInterval` callback fires. -/
  | tick
  /-- The promise awaited by the suspended activation number `i` settles. -/
  | playback (i : Nat) (o : Outcome)
  /-- An ingestion loop receives a chat item. -/
  | feed (d : Draft)
  /-- A `resetGuildData` call runs up to its delay. -/
  | resetBegin
  /-- A `resetGuildData` call runs from its delay to its end. -/
  | resetEnd
  deriving DecidableEq, Repr

/-- The timer callback up to the first suspension of `processChats`. -/
def onTick (s : Sys) : Sys :=
  if s.world.shouldStop then s
  else
    match processChatsWith s.world [] with
    | (w, .waiting r rest) => { s with world := w, drains := s.drains ++ [⟨r, rest⟩] }
    | (w, _) => { s with world := w }

/-- A suspended activation runs from its settled promise to its next suspension
or to its end. -/
def onPlayback (s : Sys) (i : Nat) (o : Outcome) : Sys :=
  match s.drains[i]? with
  | none => s
  | some d =>
    match resumeChat s.world d.chat d.rest o with
    | (w, .waiting r rest) => { s with world := w, drains := s.drains.set i ⟨r, rest⟩ }
    | (w, _) => { s with world := w, drains := s.drains.eraseIdx i }

/-- One transition. -/
def step (s : Sys) : Event → Sys
  | .tick => onTick s
  | .playback i o => onPlayback s i o
  | .feed d => { s with world := ingest d s.world }
  | .resetBegin => { s with world := resetBegin s.world, resets := s.resets + 1 }
  | .resetEnd =>
    if s.resets = 0 then s
    else { s with world := resetEnd s.world, resets := s.resets - 1 }

/-- A run of transitions. -/
def run (s : Sys) (evs : List Event) : Sys :=
  evs.foldl step s

/-- A guild with no activation in flight. -/
def idle (w : World) : Sys :=
  { world := w, drains := [], resets := 0 }

/-- Whether, along the run of `evs` from `s`, every `resetGuildData` call starts
at a moment when no activation of `processChats` is in flight. -/
def resetsWhenIdle (s : Sys) : List Event → Bool
  | [] => true
  | e :: evs => (e != .resetBegin || s.drains.isEmpty) && resetsWhenIdle (step s e) evs

/-- Whether an event belongs to a `resetGuildData` call. -/
def Event.isReset : Event → Bool
  | .resetBegin => true
  | .resetEnd => true
  | _ => false

/-! ## Notions used by the statements -/

/-- The chat with `played = true`. -/
def Chat.mark (c : Chat) : Chat := { c with played := true }

/-- The world once `processChats` has logged a chat and handed it to the
renderer. -/
def speak (w : World) (r : Ref) : World :=
  { w with
    spoken := w.spoken ++ [r]
    rendered := w.rendered ++ [truncatedText (textOf w r)]
    audioFile := true }

/-- One chat of a batch played to its end with nothing else happening: logged,
rendered, its promise resolved, then marked. -/
def playOne (w : World) (r : Ref) : World :=
  markPlayed r (settle .resolved (speak w r))

/-- Several chats played to their end one after the other. -/
def playAll (rs : List Ref) (w : World) : World :=
  rs.foldl playOne w

/-- Every object that has `played = true` in `w` still has it in `v`. -/
def Keeps (w v : World) : Prop :=
  ∀ r, isPlayed w r = true → isPlayed v r = true

/-- The cache points into the heap and holds no object twice, as in every world
the program builds: each `createData` pushes a new object. -/
def WellFormed (w : World) : Prop :=
  CacheValid w ∧ w.chatCache.Nodup

/-- At most one activation is in flight, and `isProcessing` is set while one is. -/
def OneDrain (s : Sys) : Prop :=
  s.drains.length ≤ 1 ∧ (s.drains ≠ [] → s.world.isProcessing = true)

/-- A draft as `fetchLiveChat` builds it. -/
def draftA : Draft := ⟨['A', 'n', 'a'], ['h', 'a', 'l', 'o'], false⟩

/-- A second draft. -/
def draftB : Draft := ⟨['B', 'u', 'd', 'i'], ['a', 'p', 'a'], false⟩

/-- A third draft. -/
def draftC : Draft := ⟨['C', 'i', 'c', 'i'], ['o', 'k', 'e'], false⟩

/-- A chat item of the feed. -/
def chatItem (author message : Text) : Action :=
  ⟨"addChatItemAction", author, message⟩

/-- A guild right after its first command: created, then reset. -/
def started : World := resetGuildData (initGuild blank)

/-- A guild after a successful `join` as its first command. -/
def joined : World :=
  onInteraction false (.join (some "liveid") (some 1) (some 2)) blank

/-- The joined guild with chats A, B, C queued and not played. -/
def threeQueued : World := createAll [draftA, draftB, draftC] joined

/-- The joined guild after chat A was played and a `stop` command released the
connection. -/
def stopped : World :=
  onInteraction true (.stop true) (processChats (createData draftA joined) [.resolved]).1

/-- The stopped guild after an ingestion loop that outlived the `stop` appended
chats B and C. -/
def lingering : World := createAll [draftB, draftC] stopped

/-- A run in which a command resets the guild while chat A is playing, chats B
and C arrive after the reset, and the next tick starts a batch for them. -/
def overlapRun : List Event :=
  [.tick, .resetBegin, .resetEnd, .feed draftB, .feed draftC, .tick]

/-! # Theorems -/

/-! ## Store and reset -/

theorem queue_createData (d : Draft) (w : World) (h : CacheValid w) :
    queue (createData d w) = queue w ++ [⟨w.nextId, d.name, d.message, d.played⟩] := by
  have hold : ∀ r ∈ w.chatCache,
      (w.heap ++ [(⟨w.nextId, d.name, d.message, d.played⟩ : Chat)])[r]? = w.heap[r]? :=
    fun r hr => List.getElem?_append_left (h r hr)
  simp only [createData, saveCache, queue, List.filterMap_append, List.filterMap_cons,
    List.filterMap_nil, List.getElem?_concat_length]
  rw [List.filterMap_congr hold]

theorem cacheValid_createData (d : Draft) (w : World) (h : CacheValid w) :
    CacheValid (createData d w) := by
  intro r hr
  have hlen : (createData d w).heap.length = w.heap.length + 1 := by
    simp [createData, saveCache]
  have hmem : r ∈ w.chatCache ∨ r = w.heap.length := by
    simpa [createData, saveCache] using hr
  rw [hlen]
  rcases hmem with hr | hr
  · exact Nat.lt_succ_of_lt (h r hr)
  · rw [hr]; exact Nat.lt_succ_self _

theorem nextId_createData (d : Draft) (w : World) :
    (createData d w).nextId = w.nextId + 1 := rfl

theorem dataFile_createData (d : Draft) (w : World) :
    (createData d w).dataFile = some (queue (createData d w)) := rfl

theorem createAll_spec (ds : List Draft) (w : World) (h : CacheValid w) :
    queue (createAll ds w)
        = queue w ++ (ds.enumFrom w.nextId).map
            (fun p => (⟨p.1, p.2.name, p.2.message, p.2.played⟩ : Chat))
      ∧ (createAll ds w).nextId = w.nextId + ds.length
      ∧ CacheValid (createAll ds w) := by
  induction ds generalizing w with
  | nil => simp [createAll, h]
  | cons d ds ih =>
    have step := ih (createData d w) (cacheValid_createData d w h)
    have hfold : createAll (d :: ds) w = createAll ds (createData d w) := rfl
    rw [hfold]
    refine ⟨?_, ?_, step.2.2⟩
    · rw [step.1, queue_createData d w h, nextId_createData]
      simp [List.enumFrom]
    · rw [step.2.1, nextId_createData]
      simp only [List.length_cons]
      omega

theorem chatCache_resetGuildData (w : World) : (resetGuildData w).chatCache = [] := by
  unfold resetGuildData resetEnd initializeDataFile
  split <;> rfl

theorem dataFile_resetBegin (w : World) : (resetBegin w).dataFile = none := by
  unfold resetBegin deleteDataFile
  cases hf : w.dataFile <;> cases ha : w.audioFile <;> simp [hf, ha]

theorem dataFile_resetGuildData (w : World) : (resetGuildData w).dataFile = some [] := by
  have h := dataFile_resetBegin w
  unfold resetGuildData resetEnd initializeDataFile
  simp [h]

theorem shouldStop_resetGuildData (w : World) : (resetGuildData w).shouldStop = false := by
  unfold resetGuildData resetEnd initializeDataFile
  split <;> rfl

theorem nextId_resetGuildData (w : World) : (resetGuildData w).nextId = w.nextId := by
  unfold resetGuildData resetEnd initializeDataFile resetBegin deleteDataFile
  cases hf : w.dataFile <;> cases ha : w.audioFile <;> simp [hf, ha]

theorem cacheValid_of_nil (w : World) (h : w.chatCache = []) : CacheValid w := by
  intro r hr
  rw [h] at hr
  cases hr

theorem queue_of_nil (w : World) (h : w.chatCache = []) : queue w = [] := by
  simp [queue, h]

/-- C1, as amended: `resetGuildData` leaves `nextId` as it was, so the first chat
appended after a reset gets the id `nextId` had before the reset (and the queue
and the snapshot then hold exactly that chat); the counter goes on from there. -/
theorem C1_reset_keeps_nextId (w : World) (d : Draft) :
    (resetGuildData w).nextId = w.nextId
      ∧ queue (createData d (resetGuildData w)) = [⟨w.nextId, d.name, d.message, d.played⟩]
      ∧ (createData d (resetGuildData w)).dataFile
          = some [⟨w.nextId, d.name, d.message, d.played⟩]
      ∧ (createData d (resetGuildData w)).nextId = w.nextId + 1 := by
  have hq : queue (createData d (resetGuildData w))
      = [⟨w.nextId, d.name, d.message, d.played⟩] := by
    rw [queue_createData d _ (cacheValid_of_nil _ (chatCache_resetGuildData w)),
      queue_of_nil _ (chatCache_resetGuildData w), nextId_resetGuildData]
    rfl
  refine ⟨nextId_resetGuildData w, hq, ?_, ?_⟩
  · rw [dataFile_createData, hq]
  · rw [nextId_createData, nextId_resetGuildData]

/-- C1, the claim as stated fails: with chats 1, 2, 3 appended before the reset,
`nextId` is 4, and the chat appended right after `resetGuildData` gets id 4, not 1. -/
theorem C1_counterexample :
    threeQueued.nextId = 4
      ∧ (queue (createData draftA (resetGuildData threeQueued))).map Chat.id = [4]
      ∧ (queue (createData draftA (resetGuildData threeQueued))).map Chat.id ≠ [1] := by
  decide

/-- C2: starting from a freshly created guild entry, the k-th chat appended by
`createData` gets id k: the queue holds the drafts in order with ids 1, 2, ..., n,
which are strictly increasing, and `nextId` ends at n + 1. -/
theorem C2_ids_count_from_one (w : World) (ds : List Draft) :
    queue (createAll ds (initGuild w))
        = (ds.enumFrom 1).map (fun p => (⟨p.1, p.2.name, p.2.message, p.2.played⟩ : Chat))
      ∧ (queue (createAll ds (initGuild w))).map Chat.id = List.range' 1 ds.length
      ∧ (∀ k, k < ds.length →
          ((queue (createAll ds (initGuild w)))[k]?).map Chat.id = some (k + 1))
      ∧ ((queue (createAll ds (initGuild w))).map Chat.id).Pairwise (· < ·)
      ∧ (createAll ds (initGuild w)).nextId = ds.length + 1 := by
  have hv : CacheValid (initGuild w) := cacheValid_of_nil _ rfl
  obtain ⟨hq, hn, _⟩ := createAll_spec ds (initGuild w) hv
  have hq0 : queue (initGuild w) = [] := queue_of_nil _ rfl
  have hn0 : (initGuild w).nextId = 1 := rfl
  rw [hq0, hn0, List.nil_append] at hq
  have hids : (queue (createAll ds (initGuild w))).map Chat.id = List.range' 1 ds.length := by
    rw [hq, List.map_map]
    have : (Chat.id ∘ fun p : Nat × Draft =>
        (⟨p.1, p.2.name, p.2.message, p.2.played⟩ : Chat)) = Prod.fst := rfl
    rw [this, List.enumFrom_map_fst]
  refine ⟨hq, hids, ?_, ?_, ?_⟩
  · intro k hk
    rw [← List.getElem?_map, hids, List.getElem?_range' _ _ hk]
    simp [Nat.add_comm]
  · rw [hids]
    exact List.pairwise_lt_range' 1 ds.length
  · rw [hn, hn0, Nat.add_comm]

theorem chatCache_onJoin (liveId : Option String) (voiceChannel joined : Option Handle)
    (w : World) : (onJoin liveId voiceChannel joined w).chatCache = w.chatCache := by
  unfold onJoin
  cases voiceChannel with
  | none => rfl
  | some _ =>
    simp only
    split
    · rfl
    · cases joined <;> rfl

/-- C3: whatever the cache, the flags and the snapshot file were, once
`resetGuildData` has run (no other task acting during its delay) the cache and the
queue are empty, the snapshot exists and holds the empty array, and `shouldStop`
is false; chats queued before are gone, so a `join` command leaves an empty
queue however many unplayed chats were queued when it was issued. -/
theorem C3_reset_clears (w : World) :
    (resetGuildData w).chatCache = []
      ∧ queue (resetGuildData w) = []
      ∧ (resetGuildData w).dataFile = some []
      ∧ (resetGuildData w).shouldStop = false
      ∧ ∀ (liveId : Option String) (voiceChannel joined : Option Handle),
          queue (onInteraction true (.join liveId voiceChannel joined) w) = [] :=
  ⟨chatCache_resetGuildData w, queue_of_nil _ (chatCache_resetGuildData w),
    dataFile_resetGuildData w, shouldStop_resetGuildData w,
    fun liveId voiceChannel joined => queue_of_nil _
      ((chatCache_onJoin liveId voiceChannel joined _).trans (chatCache_resetGuildData w))⟩

theorem connection_resetGuildData (w : World) :
    (resetGuildData w).connection = w.connection := by
  unfold resetGuildData resetEnd initializeDataFile resetBegin deleteDataFile
  cases hf : w.dataFile <;> cases ha : w.audioFile <;> simp [hf, ha]

theorem replies_resetGuildData (w : World) :
    (resetGuildData w).replies = w.replies := by
  unfold resetGuildData resetEnd initializeDataFile resetBegin deleteDataFile
  cases hf : w.dataFile <;> cases ha : w.audioFile <;> simp [hf, ha]

theorem onStop_not_connected (leaves : Bool) (w : World) (h : w.connection = none) :
    onStop leaves w = followUp notConnectedReply (resetGuildData w) := by
  have hc : (resetGuildData w).connection = none := by
    rw [connection_resetGuildData, h]
  unfold onStop
  simp only [hc]

/-- C5, as amended: for a guild whose connection is `null`, the `stop` command
answers with the "not connected" reply and nothing else, and leaves the guild
reset: cache and queue empty, the snapshot present and holding the empty array,
`shouldStop` false; the connection stays `null` and `nextId` is untouched. -/
theorem C5_stop_without_connection (w : World) (leaves : Bool)
    (h : w.connection = none) :
    (onInteraction true (.stop leaves) w).replies = w.replies ++ [notConnectedReply]
      ∧ (onInteraction true (.stop leaves) w).chatCache = []
      ∧ queue (onInteraction true (.stop leaves) w) = []
      ∧ (onInteraction true (.stop leaves) w).dataFile = some []
      ∧ (onInteraction true (.stop leaves) w).shouldStop = false
      ∧ (onInteraction true (.stop leaves) w).connection = none
      ∧ (onInteraction true (.stop leaves) w).nextId = w.nextId := by
  have hc : (resetGuildData w).connection = none := by
    rw [connection_resetGuildData, h]
  have hrun : onInteraction true (.stop leaves) w
      = followUp notConnectedReply (resetGuildData (resetGuildData w)) := by
    simp only [onInteraction, if_true]
    exact onStop_not_connected leaves _ hc
  rw [hrun]
  have hcache : (followUp notConnectedReply (resetGuildData (resetGuildData w))).chatCache
      = [] := chatCache_resetGuildData _
  refine ⟨?_, hcache, queue_of_nil _ hcache, ?_, ?_, ?_, ?_⟩
  · show (resetGuildData (resetGuildData w)).replies ++ [notConnectedReply] = _
    rw [replies_resetGuildData, replies_resetGuildData]
  · exact dataFile_resetGuildData _
  · exact shouldStop_resetGuildData _
  · show (resetGuildData (resetGuildData w)).connection = none
    rw [connection_resetGuildData, hc]
  · show (resetGuildData (resetGuildData w)).nextId = w.nextId
    rw [nextId_resetGuildData, nextId_resetGuildData]

/-- C5, witness: the guild whose ingestion loop outlived a `stop` has no
connection and two chats queued. -/
theorem C5_stop_without_connection_witness :
    lingering.connection = none
      ∧ (onInteraction true (.stop true) lingering).replies
          = lingering.replies ++ [notConnectedReply]
      ∧ (onInteraction true (.stop true) lingering).chatCache = []
      ∧ queue (onInteraction true (.stop true) lingering) = []
      ∧ (onInteraction true (.stop true) lingering).dataFile = some []
      ∧ (onInteraction true (.stop true) lingering).shouldStop = false
      ∧ (onInteraction true (.stop true) lingering).connection = none
      ∧ (onInteraction true (.stop true) lingering).nextId = lingering.nextId :=
  ⟨by decide, C5_stop_without_connection lingering true (by decide)⟩

/-- C5, the claim as stated fails: after a `stop` released the connection, an
ingestion loop that outlived it queued and saved chats B and C; a second `stop`
answers "not connected" and leaves the queue and the snapshot empty, not what
they were before the command. -/
theorem C5_counterexample :
    lingering.connection = none
      ∧ (queue lingering).length = 2
      ∧ lingering.dataFile = some (queue lingering)
      ∧ (onInteraction true (.stop true) lingering).replies
          = lingering.replies ++ [notConnectedReply]
      ∧ queue (onInteraction true (.stop true) lingering) = []
      ∧ (onInteraction true (.stop true) lingering).dataFile = some []
      ∧ queue (onInteraction true (.stop true) lingering) ≠ queue lingering
      ∧ (onInteraction true (.stop true) lingering).dataFile ≠ lingering.dataFile := by
  decide

/-- One turn of the loop of `processChats` when `shouldStop` is clear. -/
theorem chatLoop_cons (w : World) (r : Ref) (rest : List Ref) (oracle : List Await)
    (h : w.shouldStop = false) :
    chatLoop w (r :: rest) oracle
      = match oracle with
        | [] => (speak w r, .waiting r rest)
        | a :: more =>
          match a.outcome with
          | .rejected =>
            (settle .rejected (applyEnvs a.during (speak w r)), .threw)
          | .resolved =>
            chatLoop (markPlayed r (settle .resolved (applyEnvs a.during (speak w r))))
              rest more := by
  rw [chatLoop, if_neg (by simp [h])]
  have hp : playTextAsSpeech (textOf { w with spoken := w.spoken ++ [r] } r)
        { w with spoken := w.spoken ++ [r] }
      = (speak w r, true) := by
    rw [playTextAsSpeech, if_neg (by simp [h])]
    rfl
  simp only [hp]

theorem chatLoop_cons_resolved (w : World) (r : Ref) (rest : List Ref) (more : List Await)
    (h : w.shouldStop = false) :
    chatLoop w (r :: rest) (⟨[], .resolved⟩ :: more) = chatLoop (playOne w r) rest more := by
  rw [chatLoop_cons w r rest _ h]
  rfl

theorem shouldStop_playOne (w : World) (r : Ref) : (playOne w r).shouldStop = w.shouldStop :=
  rfl

theorem chatLoop_played_prefix (pre post : List Ref) (w : World) (more : List Await)
    (h : w.shouldStop = false) :
    chatLoop w (pre ++ post) (List.replicate pre.length ⟨[], .resolved⟩ ++ more)
      = chatLoop (playAll pre w) post more := by
  induction pre generalizing w with
  | nil => rfl
  | cons r pre ih =>
    have hstep := chatLoop_cons_resolved w r (pre ++ post)
      (List.replicate pre.length ⟨[], .resolved⟩ ++ more) h
    simp only [List.cons_append, List.length_cons, List.replicate_succ]
    rw [hstep, ih (playOne w r) (by rw [shouldStop_playOne, h])]
    rfl

/-! ## Effect of a batch on the heap and on the logs -/

theorem heap_markPlayed (r x : Ref) (w : World) :
    (markPlayed r w).heap[x]? = (w.heap[x]?).map (fun c => if r = x then c.mark else c) := by
  simp only [markPlayed, List.getElem?_modify]
  rfl

theorem unplayed_iff (w : World) (r : Ref) :
    unplayed w r = true ↔ ∃ c, w.heap[r]? = some c ∧ c.played = false := by
  unfold unplayed
  cases w.heap[r]? with
  | none => simp
  | some c => cases hc : c.played <;> simp [hc]

theorem isPlayed_iff (w : World) (r : Ref) :
    isPlayed w r = true ↔ ∃ c, w.heap[r]? = some c ∧ c.played = true := by
  unfold isPlayed
  cases w.heap[r]? with
  | none => simp
  | some c => cases hc : c.played <;> simp [hc]

theorem mem_selectUnplayed (w : World) (r : Ref) :
    r ∈ selectUnplayed w ↔ r ∈ w.chatCache ∧ unplayed w r = true := by
  simp [selectUnplayed, List.mem_filter]

theorem alone_replicate (n : Nat) (o : Outcome) :
    alone (List.replicate n o) = List.replicate n ⟨[], o⟩ := by
  simp [alone]

theorem alone_append (xs ys : List Outcome) : alone (xs ++ ys) = alone xs ++ alone ys := by
  simp [alone]

theorem processChats_enter (w : World) (outcomes : List Outcome)
    (hproc : w.isProcessing = false) (hstop : w.shouldStop = false) :
    processChats w outcomes
      = chatLoop { w with isProcessing := true } (selectUnplayed w) (alone outcomes) := by
  unfold processChats processChatsWith
  simp only [hproc, hstop, Bool.or_self, Bool.false_eq_true, if_false]
  rfl

theorem processChats_all_resolved (w : World) (outcomes : List Outcome)
    (hproc : w.isProcessing = false) (hstop : w.shouldStop = false)
    (hok : ∀ o ∈ outcomes, o = .resolved)
    (hlen : (selectUnplayed w).length ≤ outcomes.length) :
    processChats w outcomes
      = (finishBatch (playAll (selectUnplayed w) { w with isProcessing := true }),
          .returned) := by
  have hsplit : outcomes = List.replicate (selectUnplayed w).length .resolved
      ++ List.replicate (outcomes.length - (selectUnplayed w).length) .resolved := by
    rw [← List.replicate_add, Nat.add_sub_cancel' hlen]
    exact List.eq_replicate_of_mem hok
  rw [processChats_enter w outcomes hproc hstop, hsplit, alone_append, alone_replicate]
  have h := chatLoop_played_prefix (selectUnplayed w) [] { w with isProcessing := true }
    (alone (List.replicate (outcomes.length - (selectUnplayed w).length) .resolved)) hstop
  rw [List.append_nil] at h
  rw [h, chatLoop]

theorem spoken_resetBegin (w : World) : (resetBegin w).spoken = w.spoken := by
  unfold resetBegin deleteDataFile
  cases hf : w.dataFile <;> cases ha : w.audioFile <;> simp [hf, ha]

theorem spoken_resetEnd (w : World) : (resetEnd w).spoken = w.spoken := by
  unfold resetEnd initializeDataFile
  split <;> rfl

theorem spoken_ingest (d : Draft) (w : World) : (ingest d w).spoken = w.spoken := by
  unfold ingest
  split <;> rfl

theorem spoken_applyEnv (a : EnvAct) (w : World) : (applyEnv w a).spoken = w.spoken := by
  cases a with
  | feed d => exact spoken_ingest d w
  | resetBegin => exact spoken_resetBegin w
  | resetEnd => exact spoken_resetEnd w

theorem spoken_applyEnvs (acts : List EnvAct) (w : World) :
    (applyEnvs acts w).spoken = w.spoken := by
  induction acts generalizing w with
  | nil => rfl
  | cons a acts ih =>
    have hfold : applyEnvs (a :: acts) w = applyEnvs acts (applyEnv w a) := rfl
    rw [hfold, ih, spoken_applyEnv]

/-! ## Flags that ingestion leaves alone -/

theorem isProcessing_ingest (d : Draft) (w : World) :
    (ingest d w).isProcessing = w.isProcessing := by
  unfold ingest
  split <;> rfl

theorem processChatsWith_busy (w : World) (oracle : List Await) (h : w.isProcessing = true) :
    processChatsWith w oracle = (w, .returned) := by
  simp [processChatsWith, h]

theorem fetchLiveChat_append (w : World) (pre post : List Arrival)
    (h : (fetchLiveChat w pre).2 = .drained) :
    fetchLiveChat w (pre ++ post) = fetchLiveChat (fetchLiveChat w pre).1 post := by
  induction pre generalizing w with
  | nil => rfl
  | cons x pre ih =>
    simp only [List.cons_append]
    rw [fetchLiveChat] at h ⊢
    rw [fetchLiveChat]
    cases hev : x.event with
    | failure => simp [hev] at h
    | action a =>
      simp only [hev] at h ⊢
      by_cases hc : isChatItem a = true
      · simp only [hc, if_true] at h ⊢
        by_cases hs : (applyEnvs x.before w).shouldStop = true
        · simp [hs] at h
        · simp only [hs] at h ⊢
          exact ih _ h
      · simp only [hc] at h ⊢
        exact ih _ h

/-- C9: when `shouldStop` is true at the moment `fetchLiveChat` receives its next
chat item (other tasks having set it since the previous item), the loop leaves
at that item: the world it ends in is the world at that moment, with neither this
item nor any later one appended, however many items the feed still delivers and
whatever other tasks do later; the queue, `nextId` and the snapshot are the ones
that moment had. -/
theorem C9_stop_ends_ingestion (w : World) (pre : List Arrival) (x : Arrival)
    (a : Action) (post : List Arrival)
    (hrun : (fetchLiveChat w pre).2 = .drained)
    (hx : x.event = .action a) (hchat : isChatItem a = true)
    (hflag : (applyEnvs x.before (fetchLiveChat w pre).1).shouldStop = true) :
    fetchLiveChat w (pre ++ x :: post)
        = (applyEnvs x.before (fetchLiveChat w pre).1, .stopped)
      ∧ fetchLiveChat w (pre ++ x :: post) = fetchLiveChat w (pre ++ [x])
      ∧ queue (fetchLiveChat w (pre ++ x :: post)).1
          = queue (applyEnvs x.before (fetchLiveChat w pre).1)
      ∧ (fetchLiveChat w (pre ++ x :: post)).1.nextId
          = (applyEnvs x.before (fetchLiveChat w pre).1).nextId
      ∧ (fetchLiveChat w (pre ++ x :: post)).1.dataFile
          = (applyEnvs x.before (fetchLiveChat w pre).1).dataFile := by
  have hstop : ∀ more : List Arrival, fetchLiveChat w (pre ++ x :: more)
      = (applyEnvs x.before (fetchLiveChat w pre).1, .stopped) := by
    intro more
    rw [fetchLiveChat_append w pre _ hrun, fetchLiveChat]
    simp only [hx, hchat, hflag, if_true]
  rw [hstop post, hstop []]
  exact ⟨rfl, rfl, rfl, rfl, rfl⟩

/-- C9, witness: chat A is ingested; a reset begins before chat B arrives; B is
not appended, and neither is C, which arrives after the reset has ended. -/
theorem C9_stop_ends_ingestion_witness :
    (fetchLiveChat started [⟨[], .action (chatItem draftA.name draftA.message)⟩]).2 = .drained
      ∧ fetchLiveChat started
          ([⟨[], .action (chatItem draftA.name draftA.message)⟩]
            ++ ⟨[.resetBegin], .action (chatItem draftB.name draftB.message)⟩
              :: [⟨[.resetEnd], .action (chatItem draftC.name draftC.message)⟩])
        = (resetBegin (createData draftA started), .stopped)
      ∧ queue (resetBegin (createData draftA started)) = [] :=
  ⟨by decide,
    (C9_stop_ends_ingestion started [⟨[], .action (chatItem draftA.name draftA.message)⟩]
      ⟨[.resetBegin], .action (chatItem draftB.name draftB.message)⟩
      (chatItem draftB.name draftB.message)
      [⟨[.resetEnd], .action (chatItem draftC.name draftC.message)⟩]
      (by decide) rfl (by decide) (by decide)).1,
    by decide⟩

/-! ## What any activation of `processChats` preserves -/

theorem keeps_refl (w : World) : Keeps w w := fun _ h => h

theorem keeps_trans {u v w : World} (h1 : Keeps u v) (h2 : Keeps v w) : Keeps u w :=
  fun r h => h2 r (h1 r h)

theorem keeps_of_heap_eq {w v : World} (h : v.heap = w.heap) : Keeps w v := by
  intro r hr
  unfold isPlayed at hr ⊢
  rw [h]
  exact hr

theorem heap_resetBegin (w : World) : (resetBegin w).heap = w.heap := by
  unfold resetBegin deleteDataFile
  cases hf : w.dataFile <;> cases ha : w.audioFile <;> simp [hf, ha]

theorem heap_resetEnd (w : World) : (resetEnd w).heap = w.heap := by
  unfold resetEnd initializeDataFile
  split <;> rfl

theorem isPlayed_createData (d : Draft) (w : World) (r : Ref) (h : isPlayed w r = true) :
    isPlayed (createData d w) r = true := by
  obtain ⟨c, hc, hp⟩ := (isPlayed_iff w r).1 h
  have hlt : r < w.heap.length := by
    by_contra hge
    rw [List.getElem?_eq_none (Nat.le_of_not_lt hge)] at hc
    cases hc
  refine (isPlayed_iff _ r).2 ⟨c, ?_, hp⟩
  show (w.heap ++ [_])[r]? = some c
  rw [List.getElem?_append_left hlt, hc]

theorem keeps_ingest (d : Draft) (w : World) : Keeps w (ingest d w) := by
  unfold ingest
  split
  · exact keeps_refl w
  · exact fun r h => isPlayed_createData d w r h

theorem keeps_applyEnv (a : EnvAct) (w : World) : Keeps w (applyEnv w a) := by
  cases a with
  | feed d => exact keeps_ingest d w
  | resetBegin => exact keeps_of_heap_eq (heap_resetBegin w)
  | resetEnd => exact keeps_of_heap_eq (heap_resetEnd w)

theorem keeps_applyEnvs (acts : List EnvAct) (w : World) : Keeps w (applyEnvs acts w) := by
  induction acts generalizing w with
  | nil => exact keeps_refl w
  | cons a acts ih => exact keeps_trans (keeps_applyEnv a w) (ih (applyEnv w a))

theorem keeps_markPlayed (r : Ref) (w : World) : Keeps w (markPlayed r w) := by
  intro x hx
  obtain ⟨c, hc, hp⟩ := (isPlayed_iff w x).1 hx
  rw [isPlayed_iff]
  by_cases hrx : r = x
  · exact ⟨c.mark, by rw [heap_markPlayed, hc]; simp [hrx], rfl⟩
  · exact ⟨c, by rw [heap_markPlayed, hc]; simp [hrx], hp⟩

theorem chatLoop_nil (w : World) (oracle : List Await) :
    chatLoop w [] oracle = (finishBatch w, .returned) := by
  rw [chatLoop]

theorem chatLoop_stopped (w : World) (rs : List Ref) (oracle : List Await)
    (h : w.shouldStop = true) :
    chatLoop w rs oracle = (finishBatch w, .returned) := by
  cases rs with
  | nil => exact chatLoop_nil w oracle
  | cons r rest => rw [chatLoop, if_pos h]

/-- Whatever other tasks do at its suspension points, the loop of `processChats`
never takes `played = true` away, and the chats it hands to `playTextAsSpeech`
are an initial stretch of the chats it was entered with. -/
theorem chatLoop_keeps_and_speaks (rs : List Ref) (w : World) (oracle : List Await) :
    Keeps w (chatLoop w rs oracle).1
      ∧ ∃ n, (chatLoop w rs oracle).1.spoken = w.spoken ++ rs.take n := by
  induction rs generalizing w oracle with
  | nil =>
    rw [chatLoop_nil]
    exact ⟨keeps_of_heap_eq rfl, 0, by simp [finishBatch, saveCache]⟩
  | cons r rest ih =>
    by_cases hs : w.shouldStop = true
    · rw [chatLoop_stopped w _ oracle hs]
      exact ⟨keeps_of_heap_eq rfl, 0, by simp [finishBatch, saveCache]⟩
    · have hs2 : w.shouldStop = false := by simpa using hs
      rw [chatLoop_cons w r rest oracle hs2]
      cases oracle with
      | nil => exact ⟨keeps_of_heap_eq rfl, 1, by simp [speak]⟩
      | cons a more =>
        have hk1 : Keeps w (applyEnvs a.during (speak w r)) :=
          keeps_trans (keeps_of_heap_eq (w := w) (v := speak w r) rfl)
            (keeps_applyEnvs a.during _)
        have hsp : (applyEnvs a.during (speak w r)).spoken
            = w.spoken ++ [r] := spoken_applyEnvs a.during _
        cases ho : a.outcome with
        | rejected =>
          simp only [ho]
          exact ⟨hk1, 1, by simpa [settle] using hsp⟩
        | resolved =>
          simp only [ho]
          obtain ⟨hk, n, hn⟩ :=
            ih (markPlayed r (settle .resolved (applyEnvs a.during (speak w r)))) more
          refine ⟨keeps_trans hk1 (keeps_trans ?_ hk), n + 1, ?_⟩
          · exact keeps_trans (keeps_of_heap_eq rfl) (keeps_markPlayed r _)
          · rw [hn]
            have : (markPlayed r (settle .resolved (applyEnvs a.during (speak w r)))).spoken
                = w.spoken ++ [r] := hsp
            rw [this]
            simp

theorem chatLoop_suspend (w : World) (r : Ref) (rest : List Ref)
    (h : w.shouldStop = false) :
    chatLoop w (r :: rest) []
      = (speak w r, .waiting r rest) := by
  rw [chatLoop_cons w r rest [] h]

theorem onTick_stopped (s : Sys) (h : s.world.shouldStop = true) : onTick s = s := by
  simp [onTick, h]

theorem onTick_busy (s : Sys) (h : s.world.isProcessing = true) : onTick s = s := by
  unfold onTick
  split
  · rfl
  · rw [processChatsWith_busy _ _ h]

theorem processChatsWith_enter (w : World) (oracle : List Await)
    (hp : w.isProcessing = false) (hs : w.shouldStop = false) :
    processChatsWith w oracle
      = chatLoop { w with isProcessing := true } (selectUnplayed w) oracle := by
  unfold processChatsWith
  rw [if_neg (by simp [hp, hs])]
  rfl

theorem onTick_empty (s : Sys) (hs : s.world.shouldStop = false)
    (hp : s.world.isProcessing = false) (hsel : selectUnplayed s.world = []) :
    onTick s = { s with world := finishBatch { s.world with isProcessing := true } } := by
  unfold onTick
  rw [if_neg (by simp [hs]), processChatsWith_enter _ _ hp hs, hsel, chatLoop_nil]

theorem onTick_start (s : Sys) (r : Ref) (rest : List Ref) (hs : s.world.shouldStop = false)
    (hp : s.world.isProcessing = false) (hsel : selectUnplayed s.world = r :: rest) :
    onTick s = { s with
      world := speak { s.world with isProcessing := true } r
      drains := s.drains ++ [⟨r, rest⟩] } := by
  unfold onTick
  rw [if_neg (by simp [hs]), processChatsWith_enter _ _ hp hs, hsel,
    chatLoop_suspend _ r rest (show ({ s.world with isProcessing := true } : World).shouldStop
      = false from hs)]

theorem onPlayback_none (s : Sys) (i : Nat) (o : Outcome) (h : s.drains[i]? = none) :
    onPlayback s i o = s := by
  simp [onPlayback, h]

theorem onPlayback_rejected (s : Sys) (i : Nat) (d : Drain) (h : s.drains[i]? = some d) :
    onPlayback s i .rejected = { s with drains := s.drains.eraseIdx i } := by
  simp only [onPlayback, h, resumeChat, settle]

theorem onPlayback_last (s : Sys) (i : Nat) (d : Drain) (h : s.drains[i]? = some d)
    (hend : d.rest = [] ∨ s.world.shouldStop = true) :
    onPlayback s i .resolved = { s with
      world := finishBatch (markPlayed d.chat (settle .resolved s.world))
      drains := s.drains.eraseIdx i } := by
  simp only [onPlayback, h, resumeChat]
  rcases hend with hend | hend
  · rw [hend, chatLoop_nil]
  · rw [chatLoop_stopped _ _ _ (show (markPlayed d.chat (settle .resolved s.world)).shouldStop
      = true from hend)]

theorem onPlayback_next (s : Sys) (i : Nat) (d : Drain) (r : Ref) (rest : List Ref)
    (h : s.drains[i]? = some d) (hrest : d.rest = r :: rest)
    (hs : s.world.shouldStop = false) :
    onPlayback s i .resolved = { s with
      world := speak (markPlayed d.chat (settle .resolved s.world)) r
      drains := s.drains.set i ⟨r, rest⟩ } := by
  have hs2 : (markPlayed d.chat (settle .resolved s.world)).shouldStop = false := hs
  simp only [onPlayback, h, resumeChat, hrest]
  rw [chatLoop_suspend _ r rest hs2]

/-! ## At most one batch at a time -/

theorem single_of_length_le_one {α : Type} (l : List α) (i : Nat) (d : α)
    (hlen : l.length ≤ 1) (hd : l[i]? = some d) : l = [d] ∧ i = 0 := by
  match l, hlen, hd with
  | [x], _, hd =>
    cases i with
    | zero => simp at hd; exact ⟨by rw [hd], rfl⟩
    | succ j => simp at hd
  | [], _, hd => simp at hd
  | _ :: _ :: _, hlen, _ => simp at hlen

theorem isProcessing_resetEnd (w : World) : (resetEnd w).isProcessing = w.isProcessing := by
  unfold resetEnd initializeDataFile
  split <;> rfl

theorem oneDrain_step (s : Sys) (e : Event) (h : OneDrain s)
    (hreset : e = .resetBegin → s.drains = []) : OneDrain (step s e) := by
  obtain ⟨hlen, hbusy⟩ := h
  cases e with
  | tick =>
    show OneDrain (onTick s)
    by_cases hs : s.world.shouldStop = true
    · rw [onTick_stopped s hs]; exact ⟨hlen, hbusy⟩
    · by_cases hp : s.world.isProcessing = true
      · rw [onTick_busy s hp]; exact ⟨hlen, hbusy⟩
      · have hs2 : s.world.shouldStop = false := by simpa using hs
        have hp2 : s.world.isProcessing = false := by simpa using hp
        have hnone : s.drains = [] := by
          by_contra hne
          exact hp (hbusy hne)
        cases hsel : selectUnplayed s.world with
        | nil =>
          rw [onTick_empty s hs2 hp2 hsel]
          exact ⟨by simp [hnone], fun hne => absurd hnone hne⟩
        | cons r rest =>
          rw [onTick_start s r rest hs2 hp2 hsel]
          exact ⟨by simp [hnone], fun _ => rfl⟩
  | playback i o =>
    show OneDrain (onPlayback s i o)
    cases hd : s.drains[i]? with
    | none => rw [onPlayback_none s i o hd]; exact ⟨hlen, hbusy⟩
    | some d =>
      obtain ⟨hone, hi⟩ := single_of_length_le_one s.drains i d hlen hd
      have hp : s.world.isProcessing = true := hbusy (by rw [hone]; simp)
      cases o with
      | rejected =>
        rw [onPlayback_rejected s i d hd]
        exact ⟨by simp [hone, hi], fun hne => absurd (by simp [hone, hi]) hne⟩
      | resolved =>
        by_cases hs : s.world.shouldStop = true
        · rw [onPlayback_last s i d hd (Or.inr hs)]
          exact ⟨by simp [hone, hi], fun hne => absurd (by simp [hone, hi]) hne⟩
        · have hs2 : s.world.shouldStop = false := by simpa using hs
          cases hrest : d.rest with
          | nil =>
            rw [onPlayback_last s i d hd (Or.inl hrest)]
            exact ⟨by simp [hone, hi], fun hne => absurd (by simp [hone, hi]) hne⟩
          | cons r rest =>
            rw [onPlayback_next s i d r rest hd hrest hs2]
            exact ⟨by simp [hone, hi], fun _ => hp⟩
  | feed d =>
    exact ⟨hlen, fun hne => (isProcessing_ingest d s.world).trans (hbusy hne)⟩
  | resetBegin =>
    have hnone := hreset rfl
    exact ⟨by simp [step, hnone], fun hne => absurd hnone hne⟩
  | resetEnd =>
    show OneDrain (if s.resets = 0 then s else _)
    split
    · exact ⟨hlen, hbusy⟩
    · exact ⟨hlen, fun hne => (isProcessing_resetEnd s.world).trans (hbusy hne)⟩

theorem oneDrain_run (evs : List Event) (s : Sys) (h : OneDrain s)
    (hcalm : resetsWhenIdle s evs = true) : OneDrain (run s evs) := by
  induction evs generalizing s with
  | nil => exact h
  | cons e evs ih =>
    have hsplit : (e != .resetBegin || s.drains.isEmpty) = true
        ∧ resetsWhenIdle (step s e) evs = true := by
      simpa [resetsWhenIdle] using hcalm
    have hfold : run s (e :: evs) = run (step s e) evs := rfl
    rw [hfold]
    refine ih (step s e) (oneDrain_step s e h ?_) hsplit.2
    intro he
    have h1 := hsplit.1
    rw [he] at h1
    simpa using h1

/-- In every state reached from a guild with no batch in flight by timer ticks,
playback completions, ingested chats and `resetGuildData` calls, provided no
`resetGuildData` call starts while a batch is in flight, at most one activation
of `processChats` is in flight, and `isProcessing` is true while one is: the guard
of `processChats` keeps a tick from starting a batch before the earlier one has
finished. -/
theorem one_batch_unless_reset_in_flight (w : World) (evs : List Event)
    (hcalm : resetsWhenIdle (idle w) evs = true) :
    (run (idle w) evs).drains.length ≤ 1
      ∧ ((run (idle w) evs).drains ≠ [] → (run (idle w) evs).world.isProcessing = true) :=
  oneDrain_run evs (idle w) ⟨by simp [idle], fun hne => absurd rfl hne⟩ hcalm

/-! ## Runs without reset: no chat is spoken twice -/

theorem nodup_createData (d : Draft) (w : World) (hv : CacheValid w)
    (hn : w.chatCache.Nodup) : (createData d w).chatCache.Nodup := by
  show (w.chatCache ++ [w.heap.length]).Nodup
  rw [List.nodup_append]
  refine ⟨hn, List.nodup_singleton _, ?_⟩
  intro a ha hb
  rw [List.mem_singleton] at hb
  have := hv a ha
  rw [hb] at this
  exact Nat.lt_irrefl _ this

theorem wellFormed_of_nil (w : World) (h : w.chatCache = []) : WellFormed w :=
  ⟨cacheValid_of_nil w h, by rw [h]; exact List.nodup_nil⟩

theorem wellFormed_of_same (w v : World) (hc : v.chatCache = w.chatCache)
    (hl : v.heap.length = w.heap.length) (h : WellFormed w) : WellFormed v := by
  refine ⟨?_, by rw [hc]; exact h.2⟩
  intro r hr
  rw [hl]
  exact h.1 r (hc ▸ hr)

theorem wellFormed_createData (d : Draft) (w : World) (h : WellFormed w) :
    WellFormed (createData d w) :=
  ⟨cacheValid_createData d w h.1, nodup_createData d w h.1 h.2⟩

theorem chatCache_resetEnd (w : World) : (resetEnd w).chatCache = w.chatCache := by
  unfold resetEnd initializeDataFile
  split <;> rfl

theorem wellFormed_applyEnv (a : EnvAct) (w : World) (h : WellFormed w) :
    WellFormed (applyEnv w a) := by
  cases a with
  | feed d =>
    show WellFormed (ingest d w)
    unfold ingest
    split
    · exact h
    · exact wellFormed_createData d w h
  | resetBegin => exact wellFormed_of_nil _ rfl
  | resetEnd =>
    exact wellFormed_of_same w (resetEnd w) (chatCache_resetEnd w)
      (by rw [heap_resetEnd]) h

theorem wellFormed_applyEnvs (acts : List EnvAct) (w : World) (h : WellFormed w) :
    WellFormed (applyEnvs acts w) := by
  induction acts generalizing w with
  | nil => exact h
  | cons a acts ih => exact ih (applyEnv w a) (wellFormed_applyEnv a w h)

theorem wellFormed_markPlayed (r : Ref) (w : World) (h : WellFormed w) :
    WellFormed (markPlayed r w) :=
  wellFormed_of_same w _ rfl (List.length_modify _ _ _) h

theorem wellFormed_chatLoop (rs : List Ref) (w : World) (oracle : List Await)
    (h : WellFormed w) : WellFormed (chatLoop w rs oracle).1 := by
  induction rs generalizing w oracle with
  | nil => rw [chatLoop_nil]; exact h
  | cons r rest ih =>
    by_cases hs : w.shouldStop = true
    · rw [chatLoop_stopped w _ oracle hs]; exact h
    · have hs2 : w.shouldStop = false := by simpa using hs
      rw [chatLoop_cons w r rest oracle hs2]
      cases oracle with
      | nil => exact h
      | cons a more =>
        have hw : WellFormed (applyEnvs a.during (speak w r)) :=
          wellFormed_applyEnvs a.during _ h
        cases ho : a.outcome with
        | rejected => simp only [ho]; exact hw
        | resolved =>
          simp only [ho]
          exact ih _ more (wellFormed_markPlayed r _ hw)

theorem wellFormed_processChatsWith (w : World) (oracle : List Await) (h : WellFormed w) :
    WellFormed (processChatsWith w oracle).1 := by
  unfold processChatsWith
  split
  · exact h
  · exact wellFormed_chatLoop _ _ oracle h

theorem wellFormed_step (s : Sys) (e : Event) (h : WellFormed s.world) :
    WellFormed (step s e).world := by
  cases e with
  | tick =>
    show WellFormed (onTick s).world
    unfold onTick
    split
    · exact h
    · have := wellFormed_processChatsWith s.world [] h
      split <;> simp_all
  | playback i o =>
    show WellFormed (onPlayback s i o).world
    unfold onPlayback
    split
    · exact h
    · rename_i d _
      have : WellFormed (resumeChat s.world d.chat d.rest o).1 := by
        unfold resumeChat
        cases o with
        | rejected => exact h
        | resolved => exact wellFormed_chatLoop _ _ [] (wellFormed_markPlayed _ _ h)
      split <;> simp_all
  | feed d => exact wellFormed_applyEnv (.feed d) s.world h
  | resetBegin => exact wellFormed_applyEnv .resetBegin s.world h
  | resetEnd =>
    show WellFormed (if s.resets = 0 then s else _).world
    split
    · exact h
    · exact wellFormed_applyEnv .resetEnd s.world h

/-- Every world reached from a newly created guild entry, by any run of ticks,
playback completions, ingested chats and resets, is well formed. -/
theorem wellFormed_run (evs : List Event) (s : Sys) (h : WellFormed s.world) :
    WellFormed (run s evs).world := by
  induction evs generalizing s with
  | nil => exact h
  | cons e evs ih => exact ih (step s e) (wellFormed_step s e h)

theorem wellFormed_initGuild (w : World) : WellFormed (initGuild w) :=
  wellFormed_of_nil _ rfl

/-! ## The transition system and `processChats` agree -/

theorem run_drain_alone (rest : List Ref) (r : Ref) (v : World) (hs : v.shouldStop = false) :
    run { world := speak v r, drains := [⟨r, rest⟩], resets := 0 }
        (List.replicate (rest.length + 1) (.playback 0 .resolved))
      = idle (finishBatch (playAll (r :: rest) v)) := by
  induction rest generalizing r v with
  | nil =>
    have h := onPlayback_last
      { world := speak v r, drains := [⟨r, []⟩], resets := 0 } 0 ⟨r, []⟩ rfl (Or.inl rfl)
    exact h
  | cons r2 rest ih =>
    have h := onPlayback_next
      { world := speak v r, drains := [⟨r, r2 :: rest⟩], resets := 0 }
      0 ⟨r, r2 :: rest⟩ r2 rest rfl rfl hs
    have hfold : run { world := speak v r, drains := [⟨r, r2 :: rest⟩], resets := 0 }
        (List.replicate ((r2 :: rest).length + 1) (.playback 0 .resolved))
        = run (onPlayback { world := speak v r, drains := [⟨r, r2 :: rest⟩], resets := 0 }
            0 .resolved)
            (List.replicate (rest.length + 1) (.playback 0 .resolved)) := rfl
    rw [hfold, h]
    exact ih r2 (playOne v r) hs

/-- A tick followed by as many resolving playbacks as there are unplayed chats,
with nothing else happening, is a batch of `processChats` run alone. -/
theorem run_tick_batch (w : World) (hp : w.isProcessing = false) (hs : w.shouldStop = false) :
    run (idle w) (.tick :: List.replicate (selectUnplayed w).length (.playback 0 .resolved))
      = idle (processChats w (List.replicate (selectUnplayed w).length .resolved)).1 := by
  have hbatch := processChats_all_resolved w
    (List.replicate (selectUnplayed w).length .resolved) hp hs
    (fun o ho => List.eq_of_mem_replicate ho) (by simp)
  rw [hbatch]
  have hfold : ∀ evs, run (idle w) (.tick :: evs) = run (onTick (idle w)) evs := fun _ => rfl
  rw [hfold]
  cases hsel : selectUnplayed w with
  | nil =>
    rw [onTick_empty (idle w) hs hp hsel]
    rfl
  | cons r rest =>
    rw [onTick_start (idle w) r rest hs hp hsel]
    exact run_drain_alone rest r { w with isProcessing := true } hs

/-! ## A batch during which chats are ingested -/

theorem shouldStop_ingest (d : Draft) (w : World) : (ingest d w).shouldStop = w.shouldStop := by
  unfold ingest
  split <;> rfl

theorem shouldStop_applyEnvs (acts : List EnvAct) (w : World)
    (h : ∀ a ∈ acts, a.isReset = false) :
    (applyEnvs acts w).shouldStop = w.shouldStop := by
  induction acts generalizing w with
  | nil => rfl
  | cons a acts ih =>
    have hfold : applyEnvs (a :: acts) w = applyEnvs acts (applyEnv w a) := rfl
    rw [hfold, ih _ (fun b hb => h b (List.mem_cons_of_mem _ hb))]
    have ha := h a (List.mem_cons_self _ _)
    cases a with
    | feed d => exact shouldStop_ingest d w
    | resetBegin => cases ha
    | resetEnd => cases ha

theorem heapLength_ingest (d : Draft) (w : World) :
    w.heap.length ≤ (ingest d w).heap.length := by
  unfold ingest
  split
  · exact Nat.le_refl _
  · show w.heap.length ≤ (w.heap ++ [_]).length
    rw [List.length_append]
    exact Nat.le_add_right _ _

theorem heapLength_applyEnvs (acts : List EnvAct) (w : World) :
    w.heap.length ≤ (applyEnvs acts w).heap.length := by
  induction acts generalizing w with
  | nil => exact Nat.le_refl _
  | cons a acts ih =>
    refine Nat.le_trans ?_ (ih (applyEnv w a))
    cases a with
    | feed d => exact heapLength_ingest d w
    | resetBegin => exact Nat.le_of_eq (congrArg List.length (heap_resetBegin w)).symm
    | resetEnd => exact Nat.le_of_eq (congrArg List.length (heap_resetEnd w)).symm

theorem isPlayed_markPlayed_valid (r : Ref) (w : World) (h : r < w.heap.length) :
    isPlayed (markPlayed r w) r = true := by
  rw [isPlayed_iff]
  refine ⟨(w.heap[r]).mark, ?_, rfl⟩
  rw [heap_markPlayed, List.getElem?_eq_getElem h]
  simp

/-- The loop of `processChats` when every playback resolves and the other tasks
only ingest chats: it returns, having handed every chat it was entered with to
`playTextAsSpeech`, in order, and having marked each of them. -/
theorem chatLoop_with_ingestion (rs : List Ref) (w : World) (oracle : List Await)
    (hstop : w.shouldStop = false)
    (hvalid : ∀ r ∈ rs, r < w.heap.length)
    (hok : ∀ a ∈ oracle, a.outcome = .resolved ∧ ∀ e ∈ a.during, e.isReset = false)
    (hlen : rs.length ≤ oracle.length) :
    (chatLoop w rs oracle).2 = .returned
      ∧ (chatLoop w rs oracle).1.spoken = w.spoken ++ rs
      ∧ (∀ r ∈ rs, isPlayed (chatLoop w rs oracle).1 r = true)
      ∧ (chatLoop w rs oracle).1.isProcessing = false
      ∧ (chatLoop w rs oracle).1.dataFile = some (queue (chatLoop w rs oracle).1) := by
  induction rs generalizing w oracle with
  | nil =>
    rw [chatLoop_nil]
    exact ⟨rfl, by simp [finishBatch, saveCache], fun r hr => absurd hr (List.not_mem_nil r),
      rfl, rfl⟩
  | cons r rest ih =>
    cases oracle with
    | nil => simp at hlen
    | cons a more =>
      obtain ⟨hres, hquiet⟩ := hok a (List.mem_cons_self _ _)
      rw [chatLoop_cons w r rest _ hstop]
      simp only [hres]
      have hsp : (applyEnvs a.during (speak w r)).spoken = w.spoken ++ [r] :=
        spoken_applyEnvs a.during _
      have hgrow : w.heap.length ≤ (applyEnvs a.during (speak w r)).heap.length :=
        heapLength_applyEnvs a.during (speak w r)
      have hlen2 : (markPlayed r (settle .resolved (applyEnvs a.during (speak w r)))).heap.length
          = (applyEnvs a.during (speak w r)).heap.length := List.length_modify _ _ _
      obtain ⟨h1, h2, h3, h4, h5⟩ := ih
        (markPlayed r (settle .resolved (applyEnvs a.during (speak w r)))) more
        ((shouldStop_applyEnvs a.during (speak w r) hquiet).trans hstop)
        (fun x hx => by
          rw [hlen2]
          exact Nat.lt_of_lt_of_le (hvalid x (List.mem_cons_of_mem _ hx)) hgrow)
        (fun b hb => hok b (List.mem_cons_of_mem _ hb))
        (by simpa using hlen)
      refine ⟨h1, ?_, ?_, h4, h5⟩
      · rw [h2]
        have : (markPlayed r (settle .resolved (applyEnvs a.during (speak w r)))).spoken
            = w.spoken ++ [r] := hsp
        rw [this]
        simp
      · intro x hx
        rcases List.mem_cons.1 hx with hxr | hxr
        · rw [hxr]
          refine (chatLoop_keeps_and_speaks rest _ more).1 r ?_
          exact isPlayed_markPlayed_valid r _
            (Nat.lt_of_lt_of_le (hvalid r (List.mem_cons_self _ _)) hgrow)
        · exact h3 x hxr

theorem valid_of_unplayed (w : World) (r : Ref) (h : unplayed w r = true) :
    r < w.heap.length := by
  obtain ⟨c, hc, _⟩ := (unplayed_iff w r).1 h
  by_contra hge
  rw [List.getElem?_eq_none (Nat.le_of_not_lt hge)] at hc
  cases hc

/-- A batch of `processChats` in which every playback resolves, while ingestion
loops append chats at its suspension points and no reset runs: the chats unplayed
when the batch started are handed to `playTextAsSpeech`, each once, in cache
order, and nothing else is; afterwards every chat that was in the queue when the
batch started is played, the snapshot was rewritten from the cache and
`isProcessing` is false.  Chats appended during the batch are not part of it. -/
theorem batch_with_ingestion (w : World) (oracle : List Await)
    (hproc : w.isProcessing = false) (hstop : w.shouldStop = false)
    (hvalid : CacheValid w)
    (hok : ∀ a ∈ oracle, a.outcome = .resolved ∧ ∀ e ∈ a.during, e.isReset = false)
    (hlen : (selectUnplayed w).length ≤ oracle.length) :
    (processChatsWith w oracle).2 = .returned
      ∧ (processChatsWith w oracle).1.spoken = w.spoken ++ selectUnplayed w
      ∧ (∀ r ∈ w.chatCache, isPlayed (processChatsWith w oracle).1 r = true)
      ∧ (processChatsWith w oracle).1.isProcessing = false
      ∧ (processChatsWith w oracle).1.dataFile
          = some (queue (processChatsWith w oracle).1) := by
  rw [processChatsWith_enter w oracle hproc hstop]
  obtain ⟨h1, h2, h3, h4, h5⟩ := chatLoop_with_ingestion (selectUnplayed w)
    { w with isProcessing := true } oracle hstop
    (fun r hr => valid_of_unplayed w r ((mem_selectUnplayed w r).1 hr).2) hok hlen
  refine ⟨h1, h2, ?_, h4, h5⟩
  intro r hr
  by_cases hu : unplayed w r = true
  · exact h3 r ((mem_selectUnplayed w r).2 ⟨hr, hu⟩)
  · have hp : isPlayed w r = true := by
      have hlt := hvalid r hr
      rw [isPlayed_iff]
      refine ⟨w.heap[r], List.getElem?_eq_getElem hlt, ?_⟩
      cases hc : (w.heap[r]).played with
      | true => rfl
      | false =>
        exact absurd ((unplayed_iff w r).2 ⟨w.heap[r], List.getElem?_eq_getElem hlt, hc⟩) hu
    exact (chatLoop_keeps_and_speaks (selectUnplayed w) { w with isProcessing := true }
      oracle).1 r hp

/-! ## A batch whose k-th playback fails -/

/-- C7, the code at the failing input: chat A is playing (one activation of
`processChats` suspended) when a command runs `resetGuildData`, which clears
`isProcessing`; chats B and C are ingested after the reset and the next tick
starts a second activation while the first has not finished.  Two activations
are in flight, and `resetGuildData` did start while one was. -/
theorem C7_second_batch_after_reset_in_flight :
    (run (idle (createData draftA joined)) [.tick]).drains = [⟨0, []⟩]
      ∧ (run (idle (createData draftA joined)) overlapRun).drains = [⟨0, []⟩, ⟨1, [2]⟩]
      ∧ ¬ (run (idle (createData draftA joined)) overlapRun).drains.length ≤ 1
      ∧ resetsWhenIdle (idle (createData draftA joined)) overlapRun = false := by
  decide

/-- What the second activation leads to: when chat A ends, the first activation
clears `isProcessing` although the second is playing B, so one more tick starts a
third activation and B is handed to `playTextAsSpeech` a second time. -/
theorem reset_in_flight_speaks_twice :
    (run (idle (createData draftA joined))
        (overlapRun ++ [.playback 0 .resolved, .tick])).world.spoken = [0, 1, 1] := by
  decide

end YTLiveChat
